import Mathlib

/-!
Verification of the sequential task-queue daemon of the datachat repository.

The development shallowly embeds the queue/daemon/executor core that spans
`scripts/monitor_daemon.py` and `scripts/task_executor.py`:

* the Task Executor (`TaskExecutor.execute_task`) is embedded as a pure
  function from an environment (the task-file store and the opaque agent
  call outcome) to the returned `TaskResult`, the list of persisted result
  writes, and the sequence of statuses the in-memory result passed through;
* the Monitor Daemon processing loop together with the `TaskQueue` is
  embedded as a small-step transition system over an explicit state
  (in-memory queue, `current_task`, `is_processing`, loop program counter)
  that records an observable event trace (enqueues, dequeues, queue-state
  file writes, execution starts and execution resolutions);
* one iteration of `MonitorDaemon._process_queue` is additionally embedded
  as a function taking an oracle telling which `_save_state` calls succeed,
  to reason about persistence failures and the exception flow of the loop.

Timestamps are abstract natural numbers; the k-th call of `datetime.now()`
inside one execution reads clock index k.
-/

namespace DataChat

/-- Modelled from the spec: `scripts/models.py` is not part of the sources,
only its callers are. The spec (section 4.4) gives the status enum of a
TaskResult: RUNNING, then terminal COMPLETED or FAILED (PENDING is
explicitly not modeled). -/
inductive TaskStatus
  | running
  | completed
  | failed
deriving DecidableEq

/-- The structured payload stored under `worker_output` on success in
`TaskExecutor.execute_task`: summary text, the joined raw output, and
optional usage / cost metadata. -/
structure WorkerOutput where
  summary : String
  raw_output : String
  usage : Option String := none
  cost_usd : Option Nat := none
deriving DecidableEq

/-- Modelled from the spec: `scripts/models.py` is not part of the sources.
The spec (section 3) lists the TaskResult attributes: `task_id`, `status`,
`created_at`, `started_at`, optional `completed_at`, optional `error`, and
the structured `worker_output` payload. Timestamps are abstract Nat. -/
structure TaskResult where
  task_id : String
  status : TaskStatus
  created_at : Nat
  started_at : Nat
  completed_at : Option Nat := none
  error : Option String := none
  worker_output : Option WorkerOutput := none
deriving DecidableEq

/-- Modelled from the spec: `scripts/models.py` is not part of the sources.
The spec (sections 3 and 4.4) declares `duration_seconds` a derived field,
`duration_seconds = completed_at - started_at`. -/
def TaskResult.duration_seconds (r : TaskResult) : Option Int :=
  r.completed_at.map (fun c => (c : Int) - (r.started_at : Int))

/-- One message yielded by the opaque agent call stream consumed in
`TaskExecutor.execute_task`. Mirrors the duck-typed cases the source
distinguishes: a message with `subtype == "success"` (carrying `result`
and optional usage / cost), `subtype == "error"` (carrying `result`),
some other subtype (ignored), a message without subtype whose content
blocks carry the listed texts, and a message with neither. -/
inductive AgentMessage
  | success (result : Option String) (usage : Option String) (cost : Option Nat)
  | error (result : Option String)
  | otherSubtype (subtype : String)
  | content (texts : List String)
  | plain
deriving DecidableEq

/-- Kind and message of a Python exception, as used by the handler
`except Exception as e` in `TaskExecutor.execute_task`. -/
structure ExcInfo where
  name : String
  msg : String
deriving DecidableEq

/-- Behaviour of one opaque agent call: either the stream yields the listed
messages and ends, or it yields the listed messages and then raises. -/
inductive AgentOutcome
  | events (msgs : List AgentMessage)
  | raises (msgs : List AgentMessage) (exc : ExcInfo)
deriving DecidableEq

/-- Result of consuming the message stream in the `async for` loop of
`TaskExecutor.execute_task` up to the first terminal message. -/
inductive StreamOutcome
  | success (result : Option String) (usage : Option String) (cost : Option Nat)
      (acc : List String)
  | errorEv (result : Option String)
  | exhausted
  | raised (name : String) (msg : String)
deriving DecidableEq

/-- Scan a message list the way the `async for` body does: break at the
first success or error subtype, accumulate text blocks of subtype-less
content messages into `full_output`, skip everything else. Returns the
terminal outcome, or the accumulated output if no terminal message was
seen. -/
def scanMsgs : List AgentMessage → List String → StreamOutcome ⊕ List String
  | [], acc => Sum.inr acc
  | AgentMessage.success r u c :: _, acc => Sum.inl (StreamOutcome.success r u c acc)
  | AgentMessage.error r :: _, _ => Sum.inl (StreamOutcome.errorEv r)
  | AgentMessage.otherSubtype _ :: rest, acc => scanMsgs rest acc
  | AgentMessage.content ts :: rest, acc => scanMsgs rest (acc ++ ts)
  | AgentMessage.plain :: rest, acc => scanMsgs rest acc

/-- Overall outcome of iterating the agent stream: if a terminal message
occurs the loop breaks there (a later raise is never reached); a raise is
observed only when no terminal message precedes it. -/
def agentRun : AgentOutcome → StreamOutcome
  | AgentOutcome.events msgs =>
      match scanMsgs msgs [] with
      | Sum.inl t => t
      | Sum.inr _ => StreamOutcome.exhausted
  | AgentOutcome.raises msgs e =>
      match scanMsgs msgs [] with
      | Sum.inl t => t
      | Sum.inr _ => StreamOutcome.raised e.name e.msg

/-- Python `x or default` on an optional string: None and the empty string
are falsy and fall back to the default. -/
def pyOr (o : Option String) (d : String) : String :=
  match o with
  | some s => if s = "" then d else s
  | none => d

/-- `Path(task_file).stem`: the file name without its last suffix. As in
pathlib, the suffix starts at the last dot, and only counts when that dot
is neither the first nor the last character of the name. -/
def stem (s : String) : String :=
  let cs := s.data
  let n := cs.length
  let j := cs.reverse.findIdx (fun c => c = '.')
  if j < n then
    let i := n - 1 - j
    if 0 < i ∧ i < n - 1 then String.mk (cs.take i) else s
  else s

/-- Environment one execution runs in: the backing task-file store
(file name to content, `none` meaning the file is missing) and the
behaviour of the opaque agent call. -/
structure ExecEnv where
  taskFiles : String → Option String
  agent : AgentOutcome

/-- Observable outcome of one `execute_task` call that did not raise:
the returned TaskResult, the list of `_save_result` writes performed (in
order), and the sequence of statuses the in-memory result held. -/
structure ExecTrace where
  returned : TaskResult
  writes : List TaskResult
  statusHistory : List TaskStatus
deriving DecidableEq

/-- Embedding of `TaskExecutor.execute_task`.  `none` models the
`FileNotFoundError` raised by `_read_task_document` propagating out of
`execute_task` before any TaskResult is created or persisted (the read
happens before the result object and before the try block).  Otherwise a
RUNNING result is created (`created_at` reads clock 0, `started_at` clock
1), the agent stream is consumed, and exactly one `_save_result` write is
performed with the final result, which is also returned: on a success
message the result turns COMPLETED with `worker_output` capturing summary,
joined raw output and usage / cost; on an error message it turns FAILED
with `error` set from the message; on an uncaught exception the handler
turns it FAILED with `error = "Kind: message"`; if the stream ends with no
terminal message the still-RUNNING result is persisted and returned. -/
def execute_task (env : ExecEnv) (now : Nat → Nat) (task_file : String) :
    Option ExecTrace :=
  match env.taskFiles task_file with
  | none => none
  | some _content =>
    let task_id := stem task_file
    let r0 : TaskResult :=
      { task_id := task_id, status := TaskStatus.running,
        created_at := now 0, started_at := now 1 }
    match agentRun env.agent with
    | StreamOutcome.success res usage cost acc =>
        let r := { r0 with
          status := TaskStatus.completed,
          completed_at := some (now 2),
          worker_output := some
            { summary := pyOr res "Task completed",
              raw_output := String.intercalate "\n" acc,
              usage := usage, cost_usd := cost } }
        some ⟨r, [r], [TaskStatus.running, TaskStatus.completed]⟩
    | StreamOutcome.errorEv res =>
        let r := { r0 with
          status := TaskStatus.failed,
          completed_at := some (now 2),
          error := some (pyOr res "Task failed") }
        some ⟨r, [r], [TaskStatus.running, TaskStatus.failed]⟩
    | StreamOutcome.exhausted =>
        some ⟨r0, [r0], [TaskStatus.running]⟩
    | StreamOutcome.raised n m =>
        let r := { r0 with
          status := TaskStatus.failed,
          completed_at := some (now 2),
          error := some (n ++ ": " ++ m) }
        some ⟨r, [r], [TaskStatus.running, TaskStatus.failed]⟩

/-- A persisted queue-state snapshot, mirroring the dictionary built by
`TaskQueue._save_state`: `queue_size` from `self.queue.qsize()`, the
`current_task` and `is_processing` fields, and `queued_tasks` (which the
source always writes as the empty list, with the comment that
`asyncio.Queue` does not expose its contents). -/
structure QSnap where
  queue_size : Nat
  current_task : Option String
  is_processing : Bool
  queued_tasks : List String
deriving DecidableEq

/-- Mirror of `TaskQueue._save_state`: the snapshot is computed from the
live queue and flags at the moment of the write; `queued_tasks` is always
the empty list. -/
def saveStateOf (queue : List String) (current_task : Option String)
    (is_processing : Bool) : QSnap :=
  ⟨queue.length, current_task, is_processing, []⟩

/-- Program counter of the `_process_queue` coroutine relative to the task
it is handling: waiting to dequeue; returned from `get_next` but flags not
yet set; executing the task (between setting the flags and the executor
resolving); executor resolved but flags not yet cleared. -/
inductive PC
  | idle
  | gotTask (t : String)
  | executing (t : String)
  | finished (t : String)
deriving DecidableEq

/-- Observable events of a daemon run: a task enqueued by the watcher
handoff, a task dequeued by the loop, a `_save_state` write (recording the
written snapshot and, as ghost data, the in-memory queue length at the
moment of the write), an execution start, and an execution resolution
(the executor returned `some` trace or raised, `none`). -/
inductive Ev
  | enq (t : String)
  | deq (t : String)
  | save (q : QSnap) (liveLen : Nat)
  | start (t : String)
  | fin (t : String) (r : Option ExecTrace)
deriving DecidableEq

/-- Daemon system state: the in-memory `asyncio.Queue` contents, the
`TaskQueue.current_task` and `TaskQueue.is_processing` fields, the loop
program counter, and the event trace so far (oldest first). -/
structure Sys where
  queue : List String
  current_task : Option String
  is_processing : Bool
  pc : PC
  trace : List Ev
deriving DecidableEq

/-- `TaskQueue.put` as scheduled onto the loop by the watcher thread via
`run_coroutine_threadsafe`: append to the queue tail, then `_save_state`
from the live state. Can happen at any loop position. -/
def enqStep (s : Sys) (t : String) : Sys :=
  { s with
    queue := s.queue ++ [t],
    trace := s.trace ++
      [Ev.enq t,
       Ev.save (saveStateOf (s.queue ++ [t]) s.current_task s.is_processing)
         (s.queue ++ [t]).length] }

/-- `TaskQueue.get_next` awaited by the loop: pop the head, then
`_save_state` from the live state. -/
def deqStep (s : Sys) (t : String) (rest : List String) : Sys :=
  { s with
    queue := rest,
    pc := PC.gotTask t,
    trace := s.trace ++
      [Ev.deq t, Ev.save (saveStateOf rest s.current_task s.is_processing)
        rest.length] }

/-- Lines 194-196 of `monitor_daemon.py` followed by the executor call at
line 200: set `is_processing`, set `current_task`, `_save_state`, and begin
the execution (no suspension point separates these). -/
def markStep (s : Sys) (t : String) : Sys :=
  { s with
    current_task := some t,
    is_processing := true,
    pc := PC.executing t,
    trace := s.trace ++
      [Ev.save (saveStateOf s.queue (some t) true) s.queue.length,
       Ev.start t] }

/-- The awaited `executor.execute_task` call resolving, either returning a
result trace or raising (the inner except swallows the raise). -/
def finStep (s : Sys) (t : String) (r : Option ExecTrace) : Sys :=
  { s with pc := PC.finished t, trace := s.trace ++ [Ev.fin t r] }

/-- Lines 214-216 of `monitor_daemon.py`: clear `current_task` and
`is_processing`, then `_save_state`. -/
def clearStep (s : Sys) (_t : String) : Sys :=
  { s with
    current_task := none,
    is_processing := false,
    pc := PC.idle,
    trace := s.trace ++
      [Ev.save (saveStateOf s.queue none false) s.queue.length] }

/-- Small-step transition relation of the daemon (queue-state persistence
assumed to succeed; failing writes are modelled separately by
`processIteration`). Enqueues may interleave anywhere, since the watcher
thread schedules them onto the loop at any suspension point; the loop
steps follow the program order of `_process_queue`. The resolution step
carries the executor semantics: its payload is `execute_task` evaluated in
some environment. -/
inductive Step : Sys → Sys → Prop
  | enq (s : Sys) (t : String) : Step s (enqStep s t)
  | deq (s : Sys) (t : String) (rest : List String)
      (h : s.pc = PC.idle) (hq : s.queue = t :: rest) : Step s (deqStep s t rest)
  | mark (s : Sys) (t : String) (h : s.pc = PC.gotTask t) : Step s (markStep s t)
  | fin (s : Sys) (t : String) (env : ExecEnv) (now : Nat → Nat)
      (h : s.pc = PC.executing t) : Step s (finStep s t (execute_task env now t))
  | clear (s : Sys) (t : String) (h : s.pc = PC.finished t) : Step s (clearStep s t)

/-- Initial daemon state: empty queue, no current task, not processing. -/
def sysInit : Sys := ⟨[], none, false, PC.idle, []⟩

/-- States reachable by the daemon from startup. -/
inductive Reachable : Sys → Prop
  | init : Reachable sysInit
  | step {s s' : Sys} (hr : Reachable s) (hs : Step s s') : Reachable s'

/-- Execution events only (starts and resolutions), for the alternation
argument. -/
inductive TEv
  | start (t : String)
  | fin (t : String) (r : Option ExecTrace)
deriving DecidableEq

/-- Project a trace to its execution events. -/
def execEvs : List Ev → List TEv
  | [] => []
  | Ev.start t :: r => TEv.start t :: execEvs r
  | Ev.fin t x :: r => TEv.fin t x :: execEvs r
  | Ev.enq _ :: r => execEvs r
  | Ev.deq _ :: r => execEvs r
  | Ev.save _ _ :: r => execEvs r

/-- Alternation scanner: walk the execution events carrying the currently
open execution (if any); a start is legal only when no execution is open,
a resolution only for the open one. Returns the open execution at the
end, or `none` (malformed) if the alternation is violated. -/
def altScan : Option String → List TEv → Option (Option String)
  | cur, [] => some cur
  | none, TEv.start t :: r => altScan (some t) r
  | some t, TEv.fin u _ :: r => if u = t then altScan none r else none
  | some _, TEv.start _ :: _ => none
  | none, TEv.fin _ _ :: _ => none

/-- The execution the loop has started but not yet seen resolve. -/
def openOf : PC → Option String
  | PC.executing t => some t
  | _ => none

/-- Tasks of enqueue events, in order. -/
def enqs : List Ev → List String
  | [] => []
  | Ev.enq t :: r => t :: enqs r
  | Ev.deq _ :: r => enqs r
  | Ev.save _ _ :: r => enqs r
  | Ev.start _ :: r => enqs r
  | Ev.fin _ _ :: r => enqs r

/-- Tasks of dequeue events, in order. -/
def deqs : List Ev → List String
  | [] => []
  | Ev.deq t :: r => t :: deqs r
  | Ev.enq _ :: r => deqs r
  | Ev.save _ _ :: r => deqs r
  | Ev.start _ :: r => deqs r
  | Ev.fin _ _ :: r => deqs r

/-- Tasks of execution-start events, in order. -/
def starts : List Ev → List String
  | [] => []
  | Ev.start t :: r => t :: starts r
  | Ev.enq _ :: r => starts r
  | Ev.deq _ :: r => starts r
  | Ev.save _ _ :: r => starts r
  | Ev.fin _ _ :: r => starts r

/-- The task dequeued but not yet started, as a list. -/
def pendingOf : PC → List String
  | PC.gotTask t => [t]
  | _ => []

/-- Outcome of one iteration of `MonitorDaemon._process_queue` when
`_save_state` calls may raise: the remaining queue, the task the executor
was actually invoked on (if any) with its outcome, and whether an
exception escaped the iteration (terminating the processor task). -/
structure IterResult where
  queue : List String
  executed : Option String
  execOutcome : Option (Option ExecTrace)
  crashed : Bool
deriving DecidableEq

/-- One iteration of `MonitorDaemon._process_queue` with fallible
queue-state persistence. `saveOk k` tells whether the k-th `_save_state`
call of this iteration succeeds. Control flow mirrors the source: the
save inside `get_next` happens after the task is already popped, and if
it raises, the exception propagates through `asyncio.wait_for` to the
generic `except Exception` handler, which clears the flags and saves once
more — so the popped task is never executed; a raise from the
post-dequeue save (line 196) likewise skips execution; the executor call
itself is guarded by the inner try, so its raise never escapes; a raise
from the post-execution save (line 216) reaches the same handler after
the task already ran. If the save in the handler also raises, the
exception escapes `_process_queue` and the processor task dies. -/
def processIteration (q : List String) (saveOk : Nat → Bool) (env : ExecEnv)
    (now : Nat → Nat) : IterResult :=
  match q with
  | [] => ⟨[], none, none, false⟩
  | t :: rest =>
    if saveOk 0 then
      if saveOk 1 then
        let r := execute_task env now t
        if saveOk 2 then ⟨rest, some t, some r, false⟩
        else ⟨rest, some t, some r, !saveOk 3⟩
      else ⟨rest, none, none, !saveOk 2⟩
    else ⟨rest, none, none, !saveOk 1⟩

/-! ### Trace projection lemmas -/

theorem execEvs_append (l l' : List Ev) :
    execEvs (l ++ l') = execEvs l ++ execEvs l' := by
  induction l with
  | nil => rfl
  | cons e r ih => cases e <;> simp [execEvs, ih]

theorem enqs_append (l l' : List Ev) : enqs (l ++ l') = enqs l ++ enqs l' := by
  induction l with
  | nil => rfl
  | cons e r ih => cases e <;> simp [enqs, ih]

theorem deqs_append (l l' : List Ev) : deqs (l ++ l') = deqs l ++ deqs l' := by
  induction l with
  | nil => rfl
  | cons e r ih => cases e <;> simp [deqs, ih]

theorem starts_append (l l' : List Ev) :
    starts (l ++ l') = starts l ++ starts l' := by
  induction l with
  | nil => rfl
  | cons e r ih => cases e <;> simp [starts, ih]

theorem altScan_append (c : Option String) (l l' : List TEv) :
    altScan c (l ++ l') = (altScan c l).bind (fun st => altScan st l') := by
  induction l generalizing c with
  | nil => simp [altScan]
  | cons e r ih =>
    cases e with
    | start t =>
      cases c with
      | none => simp [altScan, ih]
      | some u => simp [altScan]
    | fin t x =>
      cases c with
      | none => simp [altScan]
      | some u =>
        by_cases h : t = u <;> simp [altScan, h, ih]

/-! ### Daemon invariant -/

/-- Consistency of the `TaskQueue` flags with the loop position: the
processing flag is set exactly from the post-dequeue marking until the
post-execution clearing, and `current_task` names the task being
handled. -/
def flagsOk (s : Sys) : Prop :=
  (s.pc = PC.idle → s.is_processing = false ∧ s.current_task = none) ∧
  (∀ t, s.pc = PC.gotTask t → s.is_processing = false ∧ s.current_task = none) ∧
  (∀ t, s.pc = PC.executing t → s.is_processing = true ∧ s.current_task = some t) ∧
  (∀ t, s.pc = PC.finished t → s.is_processing = true ∧ s.current_task = some t)

/-- Every persisted snapshot was computed from the live state at the
moment of the write: its `queue_size` equals the in-memory length then,
its `queued_tasks` is always empty, and whenever it reports
`is_processing` it names a current task. -/
def snapInv (s : Sys) : Prop :=
  ∀ q n, Ev.save q n ∈ s.trace →
    q.queue_size = n ∧ q.queued_tasks = [] ∧
    (q.is_processing = true → q.current_task.isSome = true)

/-- Every execution resolution in the trace carries the semantics of
`execute_task` in some environment. -/
def finInv (s : Sys) : Prop :=
  ∀ t r, Ev.fin t r ∈ s.trace → ∃ env now, r = execute_task env now t

/-- Inductive invariant of the daemon transition system. -/
def Inv (s : Sys) : Prop :=
  flagsOk s ∧
  enqs s.trace = deqs s.trace ++ s.queue ∧
  deqs s.trace = starts s.trace ++ pendingOf s.pc ∧
  altScan none (execEvs s.trace) = some (openOf s.pc) ∧
  snapInv s ∧ finInv s

theorem flags_processing {s : Sys} (hf : flagsOk s) (hp : s.is_processing = true) :
    ∃ t, s.current_task = some t ∧ (s.pc = PC.executing t ∨ s.pc = PC.finished t) := by
  obtain ⟨hi, hg, he, hd⟩ := hf
  cases hpc : s.pc with
  | idle => rw [(hi hpc).1] at hp; cases hp
  | gotTask t => rw [(hg t hpc).1] at hp; cases hp
  | executing t => exact ⟨t, (he t hpc).2, Or.inl rfl⟩
  | finished t => exact ⟨t, (hd t hpc).2, Or.inr rfl⟩

theorem execute_task_writes (env : ExecEnv) (now : Nat → Nat) (tf : String)
    (et : ExecTrace) (h : execute_task env now tf = some et) :
    et.writes = [et.returned] := by
  unfold execute_task at h
  cases hf : env.taskFiles tf with
  | none => rw [hf] at h; cases h
  | some c =>
    rw [hf] at h
    cases hr : agentRun env.agent <;> rw [hr] at h <;>
      simp only [Option.some.injEq] at h <;> rw [← h]

theorem reachable_inv {s : Sys} (h : Reachable s) : Inv s := by
  induction h with
  | init =>
    refine ⟨?_, rfl, rfl, rfl, ?_, ?_⟩
    · unfold flagsOk
      refine ⟨fun _ => ⟨rfl, rfl⟩, ?_, ?_, ?_⟩ <;> intro t ht <;> simp [sysInit] at ht
    · intro q n hq; cases hq
    · intro t r hr; cases hr
  | step hr hs ih =>
    obtain ⟨hf, h1, h2, h3, h4, h5⟩ := ih
    rename_i s s'
    cases hs with
    | enq t =>
      refine ⟨?_, ?_, ?_, ?_, ?_, ?_⟩
      · exact hf
      · show enqs (s.trace ++ _) = deqs (s.trace ++ _) ++ (s.queue ++ [t])
        rw [enqs_append, deqs_append, h1]
        simp [enqs, deqs, List.append_assoc]
      · show deqs (s.trace ++ _) = starts (s.trace ++ _) ++ pendingOf s.pc
        rw [deqs_append, starts_append, h2]
        simp [deqs, starts]
      · show altScan none (execEvs (s.trace ++ _)) = some (openOf s.pc)
        rw [execEvs_append]
        simp [execEvs, h3]
      · intro q n hq
        rw [show (enqStep s t).trace = s.trace ++ _ from rfl, List.mem_append] at hq
        rcases hq with hq | hq
        · exact h4 q n hq
        · simp only [List.mem_cons, List.not_mem_nil, or_false] at hq
          rcases hq with hq | hq
          · cases hq
          · obtain ⟨hq1, hq2⟩ := Ev.save.inj hq
            subst hq1; subst hq2
            refine ⟨rfl, rfl, fun hp => ?_⟩
            obtain ⟨u, hu, _⟩ := flags_processing hf hp
            simp [saveStateOf, hu]
      · intro t' r' hmem
        rw [show (enqStep s t).trace = s.trace ++ _ from rfl, List.mem_append] at hmem
        rcases hmem with hmem | hmem
        · exact h5 t' r' hmem
        · simp at hmem
    | deq t rest hpc hq =>
      obtain ⟨hflag, hct⟩ := hf.1 hpc
      refine ⟨?_, ?_, ?_, ?_, ?_, ?_⟩
      · unfold flagsOk
        refine ⟨?_, fun u _hu => ⟨hflag, hct⟩, ?_, ?_⟩
        · intro hc; simp [deqStep] at hc
        · intro u hu; simp [deqStep] at hu
        · intro u hu; simp [deqStep] at hu
      · show enqs (s.trace ++ _) = deqs (s.trace ++ _) ++ rest
        rw [enqs_append, deqs_append, h1, hq]
        simp [enqs, deqs]
      · show deqs (s.trace ++ _) = starts (s.trace ++ _) ++ pendingOf (PC.gotTask t)
        rw [deqs_append, starts_append, h2, hpc]
        simp [deqs, starts, pendingOf]
      · show altScan none (execEvs (s.trace ++ _)) = some (openOf (PC.gotTask t))
        rw [execEvs_append]
        simp only [execEvs, List.append_nil]
        rw [h3, hpc]; rfl
      · intro q n hmem
        rw [show (deqStep s t rest).trace = s.trace ++ _ from rfl,
          List.mem_append] at hmem
        rcases hmem with hmem | hmem
        · exact h4 q n hmem
        · simp only [List.mem_cons, List.not_mem_nil, or_false] at hmem
          rcases hmem with hmem | hmem
          · cases hmem
          · obtain ⟨hq1, hq2⟩ := Ev.save.inj hmem
            subst hq1; subst hq2
            exact ⟨rfl, rfl, fun hp => by rw [saveStateOf] at hp ⊢; simp_all⟩
      · intro t' r' hmem
        rw [show (deqStep s t rest).trace = s.trace ++ _ from rfl,
          List.mem_append] at hmem
        rcases hmem with hmem | hmem
        · exact h5 t' r' hmem
        · simp at hmem
    | mark t hpc =>
      refine ⟨?_, ?_, ?_, ?_, ?_, ?_⟩
      · unfold flagsOk
        refine ⟨?_, ?_, ?_, ?_⟩
        · intro hc; simp [markStep] at hc
        · intro u hu; simp [markStep] at hu
        · intro u hu
          have : t = u := by simpa [markStep] using hu
          subst this; exact ⟨rfl, rfl⟩
        · intro u hu; simp [markStep] at hu
      · show enqs (s.trace ++ _) = deqs (s.trace ++ _) ++ s.queue
        rw [enqs_append, deqs_append, h1]
        simp [enqs, deqs]
      · show deqs (s.trace ++ _) = starts (s.trace ++ _) ++ pendingOf (PC.executing t)
        rw [deqs_append, starts_append, h2, hpc]
        simp [deqs, starts, pendingOf]
      · show altScan none (execEvs (s.trace ++ _)) = some (openOf (PC.executing t))
        rw [execEvs_append, altScan_append, h3, hpc]
        rfl
      · intro q n hmem
        rw [show (markStep s t).trace = s.trace ++ _ from rfl,
          List.mem_append] at hmem
        rcases hmem with hmem | hmem
        · exact h4 q n hmem
        · simp only [List.mem_cons, List.not_mem_nil, or_false] at hmem
          rcases hmem with hmem | hmem
          · obtain ⟨hq1, hq2⟩ := Ev.save.inj hmem
            subst hq1; subst hq2
            exact ⟨rfl, rfl, fun _ => rfl⟩
          · cases hmem
      · intro t' r' hmem
        rw [show (markStep s t).trace = s.trace ++ _ from rfl,
          List.mem_append] at hmem
        rcases hmem with hmem | hmem
        · exact h5 t' r' hmem
        · simp at hmem
    | fin t env now hpc =>
      obtain ⟨hflag, hct⟩ := hf.2.2.1 t hpc
      refine ⟨?_, ?_, ?_, ?_, ?_, ?_⟩
      · unfold flagsOk
        refine ⟨?_, ?_, ?_, ?_⟩
        · intro hc; simp [finStep] at hc
        · intro u hu; simp [finStep] at hu
        · intro u hu; simp [finStep] at hu
        · intro u hu
          have : t = u := by simpa [finStep] using hu
          subst this; exact ⟨hflag, hct⟩
      · show enqs (s.trace ++ _) = deqs (s.trace ++ _) ++ s.queue
        rw [enqs_append, deqs_append, h1]
        simp [enqs, deqs]
      · show deqs (s.trace ++ _) = starts (s.trace ++ _) ++ pendingOf (PC.finished t)
        rw [deqs_append, starts_append, h2, hpc]
        simp [deqs, starts, pendingOf]
      · show altScan none (execEvs (s.trace ++ _)) = some (openOf (PC.finished t))
        rw [execEvs_append, altScan_append, h3, hpc]
        simp [execEvs, altScan, openOf]
      · intro q n hmem
        rw [show (finStep s t _).trace = s.trace ++ _ from rfl,
          List.mem_append] at hmem
        rcases hmem with hmem | hmem
        · exact h4 q n hmem
        · simp at hmem
      · intro t' r' hmem
        rw [show (finStep s t _).trace = s.trace ++ _ from rfl,
          List.mem_append] at hmem
        rcases hmem with hmem | hmem
        · exact h5 t' r' hmem
        · simp only [List.mem_cons, List.not_mem_nil, or_false] at hmem
          obtain ⟨hq1, hq2⟩ := Ev.fin.inj hmem
          subst hq1; subst hq2
          exact ⟨env, now, rfl⟩
    | clear t hpc =>
      refine ⟨?_, ?_, ?_, ?_, ?_, ?_⟩
      · unfold flagsOk
        refine ⟨fun _ => ⟨rfl, rfl⟩, ?_, ?_, ?_⟩ <;> intro u hu <;>
          simp [clearStep] at hu
      · show enqs (s.trace ++ _) = deqs (s.trace ++ _) ++ s.queue
        rw [enqs_append, deqs_append, h1]
        simp [enqs, deqs]
      · show deqs (s.trace ++ _) = starts (s.trace ++ _) ++ pendingOf PC.idle
        rw [deqs_append, starts_append, h2, hpc]
        simp [deqs, starts, pendingOf]
      · show altScan none (execEvs (s.trace ++ _)) = some (openOf PC.idle)
        rw [execEvs_append]
        simp only [execEvs, List.append_nil]
        rw [h3, hpc]; rfl
      · intro q n hmem
        rw [show (clearStep s t).trace = s.trace ++ _ from rfl,
          List.mem_append] at hmem
        rcases hmem with hmem | hmem
        · exact h4 q n hmem
        · simp only [List.mem_cons, List.not_mem_nil, or_false] at hmem
          obtain ⟨hq1, hq2⟩ := Ev.save.inj hmem
          subst hq1; subst hq2
          exact ⟨rfl, rfl, fun hp => by rw [saveStateOf] at hp ⊢; simp_all⟩
      · intro t' r' hmem
        rw [show (clearStep s t).trace = s.trace ++ _ from rfl,
          List.mem_append] at hmem
        rcases hmem with hmem | hmem
        · exact h5 t' r' hmem
        · simp at hmem

/-- In a well-formed alternation, the execution event immediately after a
start, when another start follows later, is the resolution of the first
started task. -/
theorem alt_split (l : List TEv) (st : Option String) (pre mid post : List TEv)
    (t1 t2 : String) (h : altScan none l = some st)
    (he : l = pre ++ TEv.start t1 :: (mid ++ TEv.start t2 :: post)) :
    ∃ r mid', mid = TEv.fin t1 r :: mid' := by
  subst he
  rw [altScan_append] at h
  cases hp : altScan none pre with
  | none => rw [hp] at h; cases h
  | some c1 =>
    rw [hp] at h
    simp only [Option.some_bind] at h
    cases c1 with
    | some u => simp [altScan] at h
    | none =>
      rw [altScan] at h
      cases mid with
      | nil => simp [altScan] at h
      | cons e mid' =>
        cases e with
        | start u => simp [altScan] at h
        | fin u r =>
          by_cases hu : u = t1
          · exact ⟨r, mid', by rw [hu]⟩
          · rw [List.cons_append, altScan, if_neg hu] at h
            cases h

/-- A resolution among the execution events comes from a resolution event
of the underlying trace. -/
theorem fin_mem_of_execEvs (t : String) (r : Option ExecTrace) (l : List Ev)
    (h : TEv.fin t r ∈ execEvs l) : Ev.fin t r ∈ l := by
  induction l with
  | nil => cases h
  | cons e rest ih =>
    cases e with
    | enq u => exact List.mem_cons_of_mem _ (ih (by simpa [execEvs] using h))
    | deq u => exact List.mem_cons_of_mem _ (ih (by simpa [execEvs] using h))
    | save q n => exact List.mem_cons_of_mem _ (ih (by simpa [execEvs] using h))
    | start u =>
      rw [execEvs, List.mem_cons] at h
      rcases h with h | h
      · cases h
      · exact List.mem_cons_of_mem _ (ih h)
    | fin u x =>
      rw [execEvs, List.mem_cons] at h
      rcases h with h | h
      · obtain ⟨h1, h2⟩ := TEv.fin.inj h
        subst h1; subst h2; exact List.mem_cons_self _ _
      · exact List.mem_cons_of_mem _ (ih h)

/-! ### Concrete runs used by the witnesses -/

/-- Identity clock: the k-th `datetime.now()` call of an execution reads
time k. -/
def now0 : Nat → Nat := fun k => k

/-- Environment whose agent streams one content chunk and then reports
success. -/
def envX : ExecEnv :=
  ⟨fun _ => some "Execute the task",
   AgentOutcome.events
     [AgentMessage.content ["step one"],
      AgentMessage.success (some "ok") none none]⟩

/-- Environment whose backing task file is missing. -/
def env404 : ExecEnv := ⟨fun _ => none, AgentOutcome.events []⟩

/-- Environment whose agent raises mid-stream. -/
def envRaise : ExecEnv :=
  ⟨fun _ => some "Execute the task",
   AgentOutcome.raises [AgentMessage.content ["step one"]]
     ⟨"ValueError", "boom"⟩⟩

/-- Environment whose agent reports an error event. -/
def envErrEv : ExecEnv :=
  ⟨fun _ => some "Execute the task",
   AgentOutcome.events
     [AgentMessage.content ["step one"], AgentMessage.error (some "bad")]⟩

/-- Executor outcome of running `task-001.md` in `envX`. -/
def rW : Option ExecTrace := execute_task envX now0 "task-001.md"

def w1 : Sys := enqStep sysInit "task-001.md"

def w2 : Sys := enqStep w1 "task-002.md"

def w3 : Sys := deqStep w2 "task-001.md" ["task-002.md"]

def w4 : Sys := markStep w3 "task-001.md"

def w5 : Sys := finStep w4 "task-001.md" rW

def w6 : Sys := clearStep w5 "task-001.md"

def w7 : Sys := deqStep w6 "task-002.md" []

def w8 : Sys := markStep w7 "task-002.md"

/-- Executor outcome of running `task-002.md` in `envX`. -/
def rW2 : Option ExecTrace := execute_task envX now0 "task-002.md"

def w9 : Sys := finStep w8 "task-002.md" rW2

def w10 : Sys := clearStep w9 "task-002.md"

theorem reach_w1 : Reachable w1 :=
  Reachable.step Reachable.init (Step.enq sysInit "task-001.md")

theorem reach_w3 : Reachable w3 :=
  Reachable.step (Reachable.step reach_w1 (Step.enq w1 "task-002.md"))
    (Step.deq w2 "task-001.md" ["task-002.md"] rfl rfl)

theorem reach_w4 : Reachable w4 :=
  Reachable.step reach_w3 (Step.mark w3 "task-001.md" rfl)

theorem reach_w8 : Reachable w8 :=
  Reachable.step (Reachable.step (Reachable.step (Reachable.step reach_w4
    (Step.fin w4 "task-001.md" envX now0 rfl)) (Step.clear w5 "task-001.md" rfl))
    (Step.deq w6 "task-002.md" [] rfl rfl)) (Step.mark w7 "task-002.md" rfl)

theorem reach_w10 : Reachable w10 :=
  Reachable.step (Reachable.step reach_w8
    (Step.fin w8 "task-002.md" envX now0 rfl)) (Step.clear w9 "task-002.md" rfl)

/-! ### Claims -/

/-- An execution resolution produced under the contract the spec gives
the executions in scope: the backing task file was present at execution
time, and the opaque agent call resolved — reported success or error, or
raised — rather than ending its stream with no terminal message. These
are the per-execution hypotheses under which a TaskResult reaches a
terminal status (a missing file yields no TaskResult at all, settled by
C4, and an exhausted stream persists a still-RUNNING result). -/
def ContractFin (t : String) (r : Option ExecTrace) : Prop :=
  ∃ env now c, env.taskFiles t = some c ∧
    agentRun env.agent ≠ StreamOutcome.exhausted ∧ r = execute_task env now t

/-- Under the contract, a resolution carries a returned result in a
terminal status, and exactly that result was persisted. -/
theorem contract_terminal (t : String) (r : Option ExecTrace)
    (h : ContractFin t r) :
    ∃ et, r = some et ∧
      (et.returned.status = TaskStatus.completed ∨
        et.returned.status = TaskStatus.failed) ∧
      et.writes = [et.returned] := by
  obtain ⟨env, now, c, hfile, hres, hr⟩ := h
  subst hr
  unfold execute_task
  rw [hfile]
  cases hrun : agentRun env.agent with
  | success r0 u c0 acc => exact ⟨_, rfl, Or.inl rfl, rfl⟩
  | errorEv r0 => exact ⟨_, rfl, Or.inr rfl, rfl⟩
  | exhausted => exact absurd hrun hres
  | raised n m => exact ⟨_, rfl, Or.inr rfl, rfl⟩

/-- Claim C1: at-most-one-concurrent execution. In every reachable daemon
state whose executions ran under the contract of the spec (backing file
present, agent call resolves — the same disclosed hypotheses as C3, since
a missing file produces no TaskResult and an exhausted agent stream
persists a RUNNING result): (a) between any two execution starts in the
trace, the first started task resolves first — its resolution is the very
next execution event — with its TaskResult in a terminal status
(COMPLETED or FAILED) and exactly that result persisted before the second
start; (b) whenever the processing flag is set there is a single current
task, named by `current_task`, that the loop is handling; (c) every
persisted QueueState snapshot reporting `is_processing = true` names one
current task. -/
theorem claim_C1_at_most_one_concurrent (s : Sys) (hr : Reachable s)
    (hc : ∀ t r, Ev.fin t r ∈ s.trace → ContractFin t r) :
    (∀ pre mid post t1 t2,
        execEvs s.trace = pre ++ TEv.start t1 :: (mid ++ TEv.start t2 :: post) →
        ∃ et mid', mid = TEv.fin t1 (some et) :: mid' ∧
          (et.returned.status = TaskStatus.completed ∨
            et.returned.status = TaskStatus.failed) ∧
          et.writes = [et.returned]) ∧
    (s.is_processing = true →
        ∃ t, s.current_task = some t ∧
          (s.pc = PC.executing t ∨ s.pc = PC.finished t)) ∧
    (∀ q n, Ev.save q n ∈ s.trace → q.is_processing = true →
        q.current_task.isSome = true) := by
  obtain ⟨hf, h1, h2, h3, h4, h5⟩ := reachable_inv hr
  refine ⟨?_, fun hp => flags_processing hf hp, fun q n hm hp => (h4 q n hm).2.2 hp⟩
  intro pre mid post t1 t2 he
  obtain ⟨r, mid', hmid⟩ := alt_split _ _ pre mid post t1 t2 h3 he
  have hfin : TEv.fin t1 r ∈ execEvs s.trace := by
    rw [he, hmid]; simp
  obtain ⟨et, hre, hterm, hw⟩ :=
    contract_terminal t1 r (hc t1 r (fin_mem_of_execEvs _ _ _ hfin))
  exact ⟨et, mid', by rw [hmid, hre], hterm, hw⟩

/-- In the concrete two-task run every resolution in the trace was
produced under the contract (the single resolution is the `envX` run of
`task-001.md`, whose file is present and whose agent reports success). -/
theorem contract_w8 : ∀ t r, Ev.fin t r ∈ w8.trace → ContractFin t r := by
  intro t r hm
  have htr : w8.trace =
      [Ev.enq "task-001.md", Ev.save ⟨1, none, false, []⟩ 1,
       Ev.enq "task-002.md", Ev.save ⟨2, none, false, []⟩ 2,
       Ev.deq "task-001.md", Ev.save ⟨1, none, false, []⟩ 1,
       Ev.save ⟨1, some "task-001.md", true, []⟩ 1, Ev.start "task-001.md",
       Ev.fin "task-001.md" rW, Ev.save ⟨1, none, false, []⟩ 1,
       Ev.deq "task-002.md", Ev.save ⟨0, none, false, []⟩ 0,
       Ev.save ⟨0, some "task-002.md", true, []⟩ 0, Ev.start "task-002.md"] := rfl
  rw [htr] at hm
  simp only [List.mem_cons, List.not_mem_nil, or_false] at hm
  rcases hm with h|h|h|h|h|h|h|h|h|h|h|h|h|h <;> cases h
  refine ⟨envX, now0, "Execute the task", rfl, ?_, rfl⟩
  decide

/-- Witness for C1 at a concrete reachable contract-respecting run that
starts two tasks: the execution event between the two starts is exactly
the resolution of the first, its result terminal and persisted. -/
theorem claim_C1_witness :
    Reachable w8 ∧ (∀ t r, Ev.fin t r ∈ w8.trace → ContractFin t r) ∧
    (∃ et mid', [TEv.fin "task-001.md" rW] =
        TEv.fin "task-001.md" (some et) :: mid' ∧
      (et.returned.status = TaskStatus.completed ∨
        et.returned.status = TaskStatus.failed) ∧
      et.writes = [et.returned]) :=
  ⟨reach_w8, contract_w8,
    (claim_C1_at_most_one_concurrent w8 reach_w8 contract_w8).1 []
      [TEv.fin "task-001.md" rW] [] "task-001.md" "task-002.md" rfl⟩

/-- Claim C2: FIFO ordering. In every reachable daemon state the sequence
of execution starts is a prefix of the sequence of enqueues (same tasks,
same order, no reordering); when the loop is idle and the queue has been
drained the two sequences coincide. -/
theorem claim_C2_fifo (s : Sys) (hr : Reachable s) :
    (∃ rest, starts s.trace ++ rest = enqs s.trace) ∧
    (s.pc = PC.idle → s.queue = [] → starts s.trace = enqs s.trace) := by
  obtain ⟨hf, h1, h2, h3, h4, h5⟩ := reachable_inv hr
  constructor
  · exact ⟨pendingOf s.pc ++ s.queue, by rw [← List.append_assoc, ← h2, ← h1]⟩
  · intro hpc hq
    rw [h1, h2, hpc, hq]
    simp [pendingOf]

/-- Witness for C2: after the concrete run enqueuing `task-001.md` then
`task-002.md` and draining the queue, the execution order equals the
enqueue order. -/
theorem claim_C2_witness :
    Reachable w10 ∧ starts w10.trace = enqs w10.trace ∧
    starts w10.trace = ["task-001.md", "task-002.md"] :=
  ⟨reach_w10, (claim_C2_fifo w10 reach_w10).2 rfl rfl, rfl⟩

/-- Claim C3: exactly one terminal transition per execution. Whenever the
backing file exists and the agent call resolves (reports success or error,
or raises), `execute_task` returns a result in a terminal status, the
status history is exactly RUNNING followed by that terminal status (one
transition, never changed afterwards within the execution), and exactly
that result is persisted. -/
theorem claim_C3_one_terminal_transition (env : ExecEnv) (now : Nat → Nat)
    (tf c : String) (hfile : env.taskFiles tf = some c)
    (hres : agentRun env.agent ≠ StreamOutcome.exhausted) :
    ∃ et, execute_task env now tf = some et ∧
      (et.returned.status = TaskStatus.completed ∨
        et.returned.status = TaskStatus.failed) ∧
      et.writes = [et.returned] ∧
      et.statusHistory = [TaskStatus.running, et.returned.status] := by
  unfold execute_task
  rw [hfile]
  cases hrun : agentRun env.agent with
  | success r u c0 acc => exact ⟨_, rfl, Or.inl rfl, rfl, rfl⟩
  | errorEv r => exact ⟨_, rfl, Or.inr rfl, rfl, rfl⟩
  | exhausted => exact absurd hrun hres
  | raised n m => exact ⟨_, rfl, Or.inr rfl, rfl, rfl⟩

/-- Witness for C3 on a concrete successful run. -/
theorem claim_C3_witness :
    envX.taskFiles "task-001.md" = some "Execute the task" ∧
    agentRun envX.agent ≠ StreamOutcome.exhausted ∧
    ∃ et, execute_task envX now0 "task-001.md" = some et ∧
      (et.returned.status = TaskStatus.completed ∨
        et.returned.status = TaskStatus.failed) ∧
      et.writes = [et.returned] ∧
      et.statusHistory = [TaskStatus.running, et.returned.status] :=
  ⟨rfl, by decide,
    claim_C3_one_terminal_transition envX now0 "task-001.md" "Execute the task"
      rfl (by decide)⟩

/-- Claim C4: missing task document. If the backing file of the task is
absent at execution time, `execute_task` raises before creating or
persisting any RUNNING state (modelled by returning `none`), and the
daemon loop catches the failure and proceeds: from any reachable state
executing that task with a nonempty queue, the run extends to a state
executing the next queued task, its start appended after the previous
starts. -/
theorem claim_C4_missing_task (env : ExecEnv) (now : Nat → Nat) (s : Sys)
    (t u : String) (rest : List String) (henv : env.taskFiles t = none)
    (hr : Reachable s) (hpc : s.pc = PC.executing t)
    (hq : s.queue = u :: rest) :
    execute_task env now t = none ∧
    ∃ s', Reachable s' ∧ s'.pc = PC.executing u ∧
      starts s'.trace = starts s.trace ++ [u] := by
  have hnone : execute_task env now t = none := by
    unfold execute_task; rw [henv]
  refine ⟨hnone,
    markStep (deqStep (clearStep (finStep s t (execute_task env now t)) t) u rest) u,
    ?_, rfl, ?_⟩
  · exact Reachable.step (Reachable.step (Reachable.step (Reachable.step hr
      (Step.fin s t env now hpc)) (Step.clear _ t rfl)) (Step.deq _ u rest rfl hq))
      (Step.mark _ u rfl)
  · simp [markStep, deqStep, clearStep, finStep, starts_append, starts]

/-- Witness for C4 at the concrete reachable state executing
`task-001.md` with `task-002.md` queued, under an environment whose task
files are all missing. -/
theorem claim_C4_witness :
    env404.taskFiles "task-001.md" = none ∧ Reachable w4 ∧
    w4.pc = PC.executing "task-001.md" ∧ w4.queue = ["task-002.md"] ∧
    (execute_task env404 now0 "task-001.md" = none ∧
      ∃ s', Reachable s' ∧ s'.pc = PC.executing "task-002.md" ∧
        starts s'.trace = starts w4.trace ++ ["task-002.md"]) :=
  ⟨rfl, reach_w4, rfl, rfl,
    claim_C4_missing_task env404 now0 w4 "task-001.md" "task-002.md" [] rfl
      reach_w4 rfl rfl⟩

/-- Claim C5: exception capture. If the agent call raises an uncaught
exception (observed outcome `raised kind message`, which happens exactly
when the stream raises with no earlier terminal message), `execute_task`
turns the result FAILED, sets `error` to the "Kind: message" string,
stamps `completed_at`, persists exactly that result, and returns it
instead of propagating the exception. -/
theorem claim_C5_exception_capture (env : ExecEnv) (now : Nat → Nat)
    (tf c n m : String) (hfile : env.taskFiles tf = some c)
    (hexc : agentRun env.agent = StreamOutcome.raised n m) :
    ∃ et, execute_task env now tf = some et ∧
      et.returned.status = TaskStatus.failed ∧
      et.returned.error = some (n ++ ": " ++ m) ∧
      et.returned.completed_at = some (now 2) ∧
      et.writes = [et.returned] := by
  unfold execute_task
  rw [hfile, hexc]
  exact ⟨_, rfl, rfl, rfl, rfl, rfl⟩

/-- Witness for C5 on a concrete raising run. -/
theorem claim_C5_witness :
    envRaise.taskFiles "task-001.md" = some "Execute the task" ∧
    agentRun envRaise.agent = StreamOutcome.raised "ValueError" "boom" ∧
    ∃ et, execute_task envRaise now0 "task-001.md" = some et ∧
      et.returned.status = TaskStatus.failed ∧
      et.returned.error = some ("ValueError" ++ ": " ++ "boom") ∧
      et.returned.completed_at = some (now0 2) ∧
      et.writes = [et.returned] :=
  ⟨rfl, rfl,
    claim_C5_exception_capture envRaise now0 "task-001.md" "Execute the task"
      "ValueError" "boom" rfl rfl⟩

/-- Claim C6: derived duration. Every execution reaching a terminal
status has `completed_at` stamped, and the derived `duration_seconds`
field of the persisted result equals `completed_at - started_at`. -/
theorem claim_C6_duration (env : ExecEnv) (now : Nat → Nat) (tf : String)
    (et : ExecTrace) (he : execute_task env now tf = some et)
    (ht : et.returned.status ≠ TaskStatus.running) :
    ∃ c, et.returned.completed_at = some c ∧
      et.returned.duration_seconds =
        some ((c : Int) - (et.returned.started_at : Int)) := by
  unfold execute_task at he
  cases hf : env.taskFiles tf with
  | none => rw [hf] at he; cases he
  | some c0 =>
    rw [hf] at he
    cases hrun : agentRun env.agent <;> rw [hrun] at he <;>
        simp only [Option.some.injEq] at he <;> subst he
    · exact ⟨now 2, rfl, rfl⟩
    · exact ⟨now 2, rfl, rfl⟩
    · exact absurd rfl ht
    · exact ⟨now 2, rfl, rfl⟩

/-- The TaskResult produced by the successful concrete run `envX`. -/
def rX : TaskResult :=
  { task_id := "task-001", status := TaskStatus.completed, created_at := 0,
    started_at := 1, completed_at := some 2, error := none,
    worker_output := some
      { summary := "ok", raw_output := "step one", usage := none,
        cost_usd := none } }

/-- The executor observable outcome of the successful concrete run. -/
def etX : ExecTrace := ⟨rX, [rX], [TaskStatus.running, TaskStatus.completed]⟩

/-- Witness for C6 on the concrete successful run. -/
theorem claim_C6_witness :
    execute_task envX now0 "task-001.md" = some etX ∧
    etX.returned.status ≠ TaskStatus.running ∧
    ∃ c, etX.returned.completed_at = some c ∧
      etX.returned.duration_seconds =
        some ((c : Int) - (etX.returned.started_at : Int)) :=
  ⟨by decide, by decide,
    claim_C6_duration envX now0 "task-001.md" etX (by decide) (by decide)⟩

/-- Claim C7 counterexample: after enqueuing one task that has not been
dequeued, the `queued_tasks` list of the persisted snapshot is empty rather
than containing that task id — `TaskQueue._save_state` always writes
`queued_tasks: []` (the source comments that `asyncio.Queue` does not
expose its contents), so the claim as stated fails at k = 1. -/
theorem claim_C7_counterexample :
    Reachable w1 ∧ w1.queue = ["task-001.md"] ∧
    w1.trace = [Ev.enq "task-001.md",
      Ev.save ⟨1, none, false, []⟩ 1] ∧
    (⟨1, none, false, []⟩ : QSnap).queued_tasks ≠ ["task-001.md"] :=
  ⟨reach_w1, rfl, rfl, by decide⟩

/-- Claim C7, amended: the `queued_tasks` field of every persisted
QueueState snapshot is the empty list — the snapshot never lists the
task_ids awaiting execution (only `queue_size` reflects them). -/
theorem claim_C7_amended (s : Sys) (hr : Reachable s) (q : QSnap) (n : Nat)
    (hm : Ev.save q n ∈ s.trace) : q.queued_tasks = [] :=
  ((reachable_inv hr).2.2.2.2.1 q n hm).2.1

/-- Witness for the amended C7 at the concrete one-enqueue run. -/
theorem claim_C7_amended_witness :
    Reachable w1 ∧ Ev.save ⟨1, none, false, []⟩ 1 ∈ w1.trace ∧
    (⟨1, none, false, []⟩ : QSnap).queued_tasks = [] :=
  ⟨reach_w1, by decide,
    claim_C7_amended w1 reach_w1 ⟨1, none, false, []⟩ 1 (by decide)⟩

/-- Claim C8: state consistency after mutation. Every persisted snapshot
(written by `_save_state` after each enqueue, each dequeue, and each
processing transition) carries a `queue_size` equal to the in-memory
queue length at the moment of the write (recorded as ghost data in the
save event). -/
theorem claim_C8_size_consistency (s : Sys) (hr : Reachable s) (q : QSnap)
    (n : Nat) (hm : Ev.save q n ∈ s.trace) : q.queue_size = n :=
  ((reachable_inv hr).2.2.2.2.1 q n hm).1

/-- Witness for C8 at the concrete run, on the snapshot written by the
second enqueue (two tasks in memory, `queue_size = 2`). -/
theorem claim_C8_witness :
    Reachable w3 ∧ Ev.save ⟨2, none, false, []⟩ 2 ∈ w3.trace ∧
    (⟨2, none, false, []⟩ : QSnap).queue_size = 2 :=
  ⟨reach_w3, by decide,
    claim_C8_size_consistency w3 reach_w3 ⟨2, none, false, []⟩ 2 (by decide)⟩

/-- Save-failure oracle that fails exactly the first `_save_state` call of
the iteration (the one inside `get_next`). -/
def failFirstSave : Nat → Bool := fun k => decide (k ≠ 0)

/-- Claim C9 counterexample: when the state-file write inside `get_next`
raises, the exception reaches the generic handler of the loop, so the already
dequeued task is never executed — with the same queue and no failure it
would have been. The failure therefore does not degrade observability
only: it loses a task (the loop itself survives, `crashed = false`). -/
theorem claim_C9_counterexample :
    (processIteration ["task-001.md"] failFirstSave envX now0).executed = none ∧
    (processIteration ["task-001.md"] failFirstSave envX now0).crashed = false ∧
    (processIteration ["task-001.md"] (fun _ => true) envX now0).executed =
      some "task-001.md" :=
  ⟨rfl, rfl, rfl⟩

/-- Claim C9, amended: a queue-state persistence failure never blocks the
progress of later tasks (the rest of the queue is untouched) and the loop
survives it whenever the recovery write in the exception handler
succeeds; but the task dequeued at the moment of the failure may be
skipped without execution, and if the recovery write fails too the
processor task terminates. With no failures the dequeued task is executed
and the loop continues. -/
theorem claim_C9_amended (t : String) (rest : List String)
    (saveOk : Nat → Bool) (env : ExecEnv) (now : Nat → Nat) :
    (processIteration (t :: rest) saveOk env now).queue = rest ∧
    ((processIteration (t :: rest) saveOk env now).crashed = true →
      (saveOk 0 = false ∧ saveOk 1 = false) ∨
      (saveOk 0 = true ∧ saveOk 1 = false ∧ saveOk 2 = false) ∨
      (saveOk 0 = true ∧ saveOk 1 = true ∧ saveOk 2 = false ∧
        saveOk 3 = false)) ∧
    ((∀ k, saveOk k = true) →
      (processIteration (t :: rest) saveOk env now).executed = some t ∧
      (processIteration (t :: rest) saveOk env now).crashed = false) := by
  cases h0 : saveOk 0 with
  | false =>
    cases h1 : saveOk 1 with
    | false =>
      refine ⟨by simp [processIteration, h0], fun _ => Or.inl ⟨rfl, rfl⟩, ?_⟩
      intro hall; rw [hall 0] at h0; cases h0
    | true =>
      refine ⟨by simp [processIteration, h0], ?_, ?_⟩
      · intro hcr; rw [show (processIteration (t :: rest) saveOk env now).crashed
          = !saveOk 1 by simp [processIteration, h0], h1] at hcr; cases hcr
      · intro hall; rw [hall 0] at h0; cases h0
  | true =>
    cases h1 : saveOk 1 with
    | false =>
      cases h2 : saveOk 2 with
      | false =>
        refine ⟨by simp [processIteration, h0, h1], fun _ => Or.inr (Or.inl ⟨rfl, rfl, rfl⟩), ?_⟩
        intro hall; rw [hall 1] at h1; cases h1
      | true =>
        refine ⟨by simp [processIteration, h0, h1], ?_, ?_⟩
        · intro hcr; rw [show (processIteration (t :: rest) saveOk env now).crashed
            = !saveOk 2 by simp [processIteration, h0, h1], h2] at hcr; cases hcr
        · intro hall; rw [hall 1] at h1; cases h1
    | true =>
      cases h2 : saveOk 2 with
      | false =>
        cases h3 : saveOk 3 with
        | false =>
          refine ⟨by simp [processIteration, h0, h1, h2], fun _ =>
            Or.inr (Or.inr ⟨rfl, rfl, rfl, rfl⟩), ?_⟩
          intro hall; rw [hall 2] at h2; cases h2
        | true =>
          refine ⟨by simp [processIteration, h0, h1, h2], ?_, ?_⟩
          · intro hcr; rw [show (processIteration (t :: rest) saveOk env
              now).crashed = !saveOk 3 by simp [processIteration, h0, h1, h2],
              h3] at hcr; cases hcr
          · intro hall; rw [hall 2] at h2; cases h2
      | true =>
        refine ⟨by simp [processIteration, h0, h1, h2], ?_, ?_⟩
        · intro hcr; rw [show (processIteration (t :: rest) saveOk env
            now).crashed = false by simp [processIteration, h0, h1, h2]] at hcr
          cases hcr
        · intro _
          exact ⟨by simp [processIteration, h0, h1, h2],
            by simp [processIteration, h0, h1, h2]⟩

/-- Witness for the amended C9 with all persistence writes succeeding. -/
theorem claim_C9_amended_witness :
    (processIteration ["task-001.md", "task-002.md"] (fun _ => true) envX
      now0).queue = ["task-002.md"] ∧
    (∀ k, (fun _ => true : Nat → Bool) k = true) ∧
    (processIteration ["task-001.md", "task-002.md"] (fun _ => true) envX
      now0).executed = some "task-001.md" ∧
    (processIteration ["task-001.md", "task-002.md"] (fun _ => true) envX
      now0).crashed = false :=
  ⟨(claim_C9_amended "task-001.md" ["task-002.md"] (fun _ => true) envX now0).1,
    fun _ => rfl,
    (claim_C9_amended "task-001.md" ["task-002.md"] (fun _ => true) envX now0).2.2
      (fun _ => rfl)⟩

/-- Claim C10 (implicit): accumulated output is persisted only for
COMPLETED results. A result carrying `worker_output` is COMPLETED, and a
FAILED result carries no `worker_output` (the buffered text is discarded)
and does carry an error string. -/
theorem claim_C10_output_only_on_success (env : ExecEnv) (now : Nat → Nat)
    (tf : String) (et : ExecTrace) (he : execute_task env now tf = some et) :
    (et.returned.worker_output.isSome = true →
      et.returned.status = TaskStatus.completed) ∧
    (et.returned.status = TaskStatus.failed →
      et.returned.worker_output = none ∧ et.returned.error.isSome = true) := by
  unfold execute_task at he
  cases hf : env.taskFiles tf with
  | none => rw [hf] at he; cases he
  | some c0 =>
    rw [hf] at he
    cases hrun : agentRun env.agent <;> rw [hrun] at he <;>
        simp only [Option.some.injEq] at he <;> subst he
    · exact ⟨fun _ => rfl, fun h => nomatch h⟩
    · refine ⟨fun h => ?_, fun _ => ⟨rfl, rfl⟩⟩
      simp at h
    · refine ⟨fun h => ?_, fun h => ?_⟩ <;> simp at h
    · refine ⟨fun h => ?_, fun _ => ⟨rfl, rfl⟩⟩
      simp at h

/-- The TaskResult produced by the concrete error-event run `envErrEv`. -/
def rE : TaskResult :=
  { task_id := "task-001", status := TaskStatus.failed, created_at := 0,
    started_at := 1, completed_at := some 2, error := some "bad",
    worker_output := none }

/-- The executor observable outcome of the concrete error-event run. -/
def etE : ExecTrace := ⟨rE, [rE], [TaskStatus.running, TaskStatus.failed]⟩

/-- Witness for C10 on the concrete error-event run: the FAILED result
has no worker output and carries the error string. -/
theorem claim_C10_witness :
    execute_task envErrEv now0 "task-001.md" = some etE ∧
    ((etE.returned.worker_output.isSome = true →
        etE.returned.status = TaskStatus.completed) ∧
      (etE.returned.status = TaskStatus.failed →
        etE.returned.worker_output = none ∧ etE.returned.error.isSome = true)) :=
  ⟨by decide,
    claim_C10_output_only_on_success envErrEv now0 "task-001.md" etE (by decide)⟩

end DataChat
